import Mathlib

/-!
Verification of the model-metadata resolution and configuration-merge engine
of the opencode-nexos-models-config CLI tool, against its specification.

The JavaScript source is shallowly embedded: JSON-like runtime values become
the inductive type `JVal`, JS objects become insertion-ordered association
lists, property access / assignment / object-spread become the corresponding
list operations below, and each exported function of `models.config.mjs` and
the main module is translated into a Lean function of the same name.
-/

namespace Nexos

/-- JS number values as they occur in this program: finite numbers are
modelled as rationals; `parseFloat` can additionally produce infinities
and NaN, so those are represented explicitly. -/
inductive JNum where
  | fin (q : ℚ)
  | posInf
  | negInf
  | nan
deriving DecidableEq, Repr

/-- JSON-like JS runtime values. JS objects are insertion-ordered lists of
string-keyed fields (keys are unique in any value a JS program can build;
operations below take the first matching field). `undefined` is not a `JVal`:
absent values are `Option.none` at the operation level. -/
inductive JVal where
  | num (n : JNum)
  | str (s : String)
  | bool (b : Bool)
  | null
  | arr (elems : List JVal)
  | obj (fields : List (String × JVal))

/-- Shorthand for a finite JS number literal. -/
def jq (q : ℚ) : JVal := .num (.fin q)

/-- Shorthand for a finite decimal JS number literal, written as a fraction
(`jdec 625 100` is the source literal `6.25`); `mkRat` is used because it
reduces definitionally, which decimal `OfScientific` literals do not. -/
def jdec (num : Int) (den : Nat) : JVal := .num (.fin (mkRat num den))

/-- JS truthiness of a value: `0`, `NaN`, `""`, `false` and `null` are falsy;
every object and array is truthy. -/
def truthy : JVal → Bool
  | .num (.fin q) => q != 0
  | .num .nan => false
  | .num _ => true
  | .str s => s != ""
  | .bool b => b
  | .null => false
  | .arr _ => true
  | .obj _ => true

/-- Truthiness of a possibly-undefined value (`undefined` is falsy). -/
def truthyOpt : Option JVal → Bool
  | some v => truthy v
  | none => false

/-- Field lookup in an object field list: first matching key wins (JS
objects have unique keys, so this is exact on values a JS program can
build). -/
def findKey : List (String × JVal) → String → Option JVal
  | [], _ => none
  | p :: rest, k => if p.1 == k then some p.2 else findKey rest k

/-- JS property read `v[k]` for the object case; non-objects yield
`undefined` (`none`). -/
def getField : JVal → String → Option JVal
  | .obj fs, k => findKey fs k
  | _, _ => none

/-- Optional-chaining property read `v?.k`. -/
def optField (v : Option JVal) (k : String) : Option JVal :=
  v.bind (getField · k)

/-- JS property assignment / object-literal key override: if `k` is already a
key, its value is replaced in place (keeping its position); otherwise the
field is appended at the end. On unique-key field lists this is exactly the
JS semantics of `o[k] = v` and of a later `k: v` entry in an object literal. -/
def setKey : List (String × JVal) → String → JVal → List (String × JVal)
  | [], k, v => [(k, v)]
  | p :: rest, k, v => if p.1 == k then (k, v) :: rest else p :: setKey rest k v

/-- Own enumerable properties contributed by `...v` in a JS object literal:
objects contribute their fields, arrays and strings contribute index-keyed
entries, and primitives (and `null`) contribute nothing. -/
def spreadVal : JVal → List (String × JVal)
  | .obj fs => fs
  | .arr xs => xs.enum.map (fun p => (toString p.1, p.2))
  | .str s => s.data.enum.map (fun p => (toString p.1, JVal.str (String.singleton p.2)))
  | _ => []

/-- Spread of a possibly-undefined value (`...undefined` contributes nothing). -/
def spreadOpt : Option JVal → List (String × JVal)
  | some v => spreadVal v
  | none => []

/-- Extend an object-literal field accumulator by the fields of a spread, in
order, with later keys overriding earlier ones. -/
def objExtend (acc : List (String × JVal)) (fs : List (String × JVal)) : List (String × JVal) :=
  fs.foldl (fun a p => setKey a p.1 p.2) acc

/-- Last binding of key `k` in a field list (what a JS object built from this
field sequence would hold at `k`). -/
def lastField : List (String × JVal) → String → Option JVal
  | [], _ => none
  | p :: rest, k =>
    match lastField rest k with
    | some w => some w
    | none => if p.1 == k then some p.2 else none

/-- Keys of an object value, in order. -/
def objKeys : JVal → List String
  | .obj fs => fs.map (·.1)
  | _ => []

/-- Whether an object value has a field named `k`. -/
def hasField (v : JVal) (k : String) : Bool :=
  (getField v k).isSome

/-- Source `asObject`: `value && typeof value === "object" ? value : undefined`.
In JS both plain objects and arrays have `typeof` `"object"`; `null` is
excluded by the truthiness test. The argument may be `undefined` (`none`). -/
def asObject : Option JVal → Option JVal
  | some (.obj fs) => some (.obj fs)
  | some (.arr xs) => some (.arr xs)
  | _ => none

/-- Substring occurrence on character lists (structural, so that concrete
string computations reduce definitionally). -/
def containsSub (hay sub : List Char) : Bool :=
  match hay with
  | [] => sub.isEmpty
  | _ :: rest => sub.isPrefixOf hay || containsSub rest sub

/-- JS `String.prototype.includes`. -/
def jsIncludes (s sub : String) : Bool :=
  containsSub s.data sub.data

/-- JS `String.prototype.startsWith`. -/
def jsStartsWith (s pre : String) : Bool :=
  pre.data.isPrefixOf s.data

/-- JS `String.prototype.toLowerCase` (character-wise lowering; all names
this program compares are ASCII). -/
def jsToLower (s : String) : String :=
  ⟨s.data.map Char.toLower⟩

/-- Loop body of source `uniqueStrings`: skip non-strings, skip strings
already collected, append the rest in order. -/
def uniqueStringsAux : List JVal → List String → List String
  | [], out => out
  | v :: rest, out =>
    match v with
    | .str s => if out.contains s then uniqueStringsAux rest out else uniqueStringsAux rest (out ++ [s])
    | _ => uniqueStringsAux rest out

/-- Source `uniqueStrings(values)`: iterates `values || []`, keeping the first
occurrence of each string element. A falsy or absent argument yields `[]`; an
array iterates its elements; a string iterates its characters (JS strings are
iterable and each character passes the `typeof` test). Other truthy values
are not iterable and would throw in JS; theorems about `env` therefore
restrict to the throw-free shapes. -/
def uniqueStrings : Option JVal → List String
  | some (.arr xs) => uniqueStringsAux xs []
  | some (.str s) => uniqueStringsAux (s.data.map (fun c => JVal.str (String.singleton c))) []
  | _ => []

/-- JS `a || b` for a possibly-undefined left operand. -/
def jsOrD (a : Option JVal) (b : JVal) : JVal :=
  match a with
  | some v => if truthy v then v else b
  | none => b

/-- JS `a ?? b` (nullish coalescing) for a possibly-undefined left operand. -/
def nullishD (a : Option JVal) (b : JVal) : JVal :=
  match a with
  | some .null => b
  | some v => v
  | none => b

/-- The `SUPPORTED_MODELS` registry literal of `models.config.mjs`: display
name to metadata (limit, cost, variants, options). -/
def SUPPORTED_MODELS : List (String × JVal) := [
  ("Claude Opus 4.5", .obj [
    ("limit", .obj [("context", jq 200000), ("output", jq 64000)]),
    ("cost", .obj [("input", jq 5), ("output", jq 25), ("cache_read", jdec 5 10), ("cache_write", jdec 625 100)]),
    ("variants", .obj [
      ("low", .obj [("thinking", .obj [("type", .str "enabled"), ("budgetTokens", jq 1024)])]),
      ("high", .obj [("thinking", .obj [("type", .str "enabled"), ("budgetTokens", jq 32000)])])])]),
  ("Claude Opus 4.6", .obj [
    ("limit", .obj [("context", jq 200000), ("output", jq 128000)]),
    ("cost", .obj [("input", jq 5), ("output", jq 25), ("cache_read", jdec 5 10), ("cache_write", jdec 625 100)]),
    ("variants", .obj [
      ("low", .obj [("thinking", .obj [("type", .str "enabled"), ("budgetTokens", jq 1024)])]),
      ("high", .obj [("thinking", .obj [("type", .str "enabled"), ("budgetTokens", jq 32000)])])])]),
  ("Claude Sonnet 4.5", .obj [
    ("limit", .obj [("context", jq 200000), ("output", jq 64000)]),
    ("cost", .obj [("input", jq 3), ("output", jq 15), ("cache_read", jdec 3 10), ("cache_write", jdec 375 100)]),
    ("variants", .obj [
      ("low", .obj [("thinking", .obj [("type", .str "enabled"), ("budgetTokens", jq 1024)])]),
      ("high", .obj [("thinking", .obj [("type", .str "enabled"), ("budgetTokens", jq 32000)])])])]),
  ("GPT 5.2", .obj [
    ("limit", .obj [("context", jq 400000), ("output", jq 128000)]),
    ("cost", .obj [("input", jdec 175 100), ("output", jq 14), ("cache_read", jdec 175 1000)]),
    ("variants", .obj [
      ("low", .obj [("reasoningEffort", .str "low")]),
      ("high", .obj [("reasoningEffort", .str "high")])]),
    ("options", .obj [("reasoningEffort", .str "none")])]),
  ("GPT 5", .obj [
    ("limit", .obj [("context", jq 400000), ("output", jq 128000)]),
    ("cost", .obj [("input", jdec 125 100), ("output", jq 10), ("cache_read", jdec 125 1000)]),
    ("variants", .obj [
      ("low", .obj [("reasoningEffort", .str "low")]),
      ("high", .obj [("reasoningEffort", .str "high")])]),
    ("options", .obj [("reasoningEffort", .str "none")])]),
  ("Gemini 2.5 Pro", .obj [
    ("limit", .obj [("context", jq 1048576), ("output", jq 65536)]),
    ("cost", .obj [("input", jdec 125 100), ("output", jq 10), ("cache_read", jdec 125 1000)]),
    ("variants", .obj [
      ("low", .obj [("thinking", .obj [("type", .str "enabled"), ("budgetTokens", jq 1024)])]),
      ("high", .obj [("thinking", .obj [("type", .str "enabled"), ("budgetTokens", jq 32768)])])])]),
  ("Gemini 2.5 Flash", .obj [
    ("limit", .obj [("context", jq 1048576), ("output", jq 65536)]),
    ("cost", .obj [("input", jdec 3 10), ("output", jdec 25 10), ("cache_read", jdec 3 100)]),
    ("variants", .obj [
      ("low", .obj [("thinking", .obj [("type", .str "enabled"), ("budgetTokens", jq 1024)])]),
      ("high", .obj [("thinking", .obj [("type", .str "enabled"), ("budgetTokens", jq 24576)])])])]),
  ("Kimi K2.5", .obj [
    ("limit", .obj [("context", jq 256000), ("output", jq 64000)]),
    ("cost", .obj [("input", jdec 6 10), ("output", jq 3), ("cache_read", jdec 1 10)])])]

/-- Source `DEFAULT_FALLBACK_COSTS`: costs for models not in the registry. -/
def DEFAULT_FALLBACK_COSTS : JVal :=
  .obj [("input", jq 5), ("output", jq 25), ("cache_read", jdec 5 10), ("cache_write", jdec 625 100)]

/-- Source `skippedModelPrefixes`. -/
def skippedModelPrefixes : List String := ["Gemini 3"]

/-- Source `clone`: `structuredClone` with an `undefined` guard. On the pure
value level a deep copy is the identity; the aliasing consequences of cloning
versus sharing are modelled separately by the cell-heap embedding below. -/
def clone (v : JVal) : JVal := v

/-- Source `getModelConfig`: `SUPPORTED_MODELS[displayName] || null`. Every
registry entry is a truthy object, so the result is the stored entry when the
name is a key, and `null` (modelled `none`) otherwise. -/
def getModelConfig (displayName : String) : Option JVal :=
  findKey SUPPORTED_MODELS displayName

/-- Source `isModelSupported`: `displayName in SUPPORTED_MODELS`. -/
def isModelSupported (displayName : String) : Bool :=
  (findKey SUPPORTED_MODELS displayName).isSome

/-- The raw API model objects consumed by this tool, per the documented
catalog shape: `{id, name?, context_window?, max_output_tokens?}`. -/
structure ApiModel where
  id : String
  name : Option String := none
  context_window : Option ℚ := none
  max_output_tokens : Option ℚ := none
deriving DecidableEq, Repr

/-- Fallback branch of source `getModelLimit`: derive the limit from the API
hints with `||` defaulting (`context_window || 128000`,
`max_output_tokens || 64000`; a zero hint is falsy and also defaults). The
source additionally logs a warning here; diagnostics are not modelled. -/
def limitFallback (apiModel : Option ApiModel) : JVal :=
  let ctx : ℚ := match apiModel with
    | some m => match m.context_window with
      | some q => if q != 0 then q else 128000
      | none => 128000
    | none => 128000
  let out : ℚ := match apiModel with
    | some m => match m.max_output_tokens with
      | some q => if q != 0 then q else 64000
      | none => 64000
    | none => 64000
  .obj [("context", jq ctx), ("output", jq out)]

/-- Source `getModelLimit(displayName, apiModel = null)`: registry limit when
present (cloned), else the API-hint fallback. -/
def getModelLimit (displayName : String) (apiModel : Option ApiModel) : JVal :=
  match optField (getModelConfig displayName) "limit" with
  | some lim =>
    if truthy lim then clone lim else limitFallback apiModel
  | none => limitFallback apiModel

/-- Source `getModelCost(displayName, existingCosts)`: a truthy existing
override for the exact name wins and is returned as-is; otherwise the
registry cost (cloned) when present and truthy; otherwise the fallback cost
constant (cloned). -/
def getModelCost (displayName : String) (existingCosts : JVal) : JVal :=
  if truthy existingCosts && truthyOpt (getField existingCosts displayName) then
    (getField existingCosts displayName).getD .null
  else
    match optField (getModelConfig displayName) "cost" with
    | some c => if truthy c then clone c else clone DEFAULT_FALLBACK_COSTS
    | none => clone DEFAULT_FALLBACK_COSTS

/-- Source `getModelVariants`: registry variants (cloned) when present and
truthy, else `undefined`. -/
def getModelVariants (displayName : String) : Option JVal :=
  match optField (getModelConfig displayName) "variants" with
  | some v => if truthy v then some (clone v) else none
  | none => none

/-- Source `getModelOptions`: registry options (cloned) when present and
truthy, else `undefined`. -/
def getModelOptions (displayName : String) : Option JVal :=
  match optField (getModelConfig displayName) "options" with
  | some v => if truthy v then some (clone v) else none
  | none => none

/-- Source `isSkippedModel`: the display name starts with a skip prefix. -/
def isSkippedModel (displayName : String) : Bool :=
  skippedModelPrefixes.any (fun p => jsStartsWith displayName p)

/-- Source `getDisplayName`: `model.name || model.id` (an empty or absent
`name` is falsy, so the `id` is used). -/
def getDisplayName (model : ApiModel) : String :=
  match model.name with
  | some s => if s != "" then s else model.id
  | none => model.id

/-- Result record of source `processModels`: the resolved model map (an
insertion-ordered field list), the reported skip list, and the reported
unsupported list. -/
structure ProcessingResult where
  models : List (String × JVal)
  skippedModels : List String
  unsupportedModels : List String

/-- The per-model object literal written into the output map by source
`processModels`: `{name, limit, ...(options ? {options} : {}),
...(variants ? {variants} : {}), ...(cost ? {cost} : {})}`. -/
def resolvedModelValue (existingCosts : JVal) (model : ApiModel) : JVal :=
  let displayName := getDisplayName model
  let limit := getModelLimit displayName (some model)
  let variants := getModelVariants displayName
  let options := getModelOptions displayName
  let cost := getModelCost displayName existingCosts
  .obj ([("name", .str displayName), ("limit", limit)]
    ++ (if truthyOpt options then [("options", options.getD .null)] else [])
    ++ (if truthyOpt variants then [("variants", variants.getD .null)] else [])
    ++ (if truthy cost then [("cost", cost)] else []))

/-- One iteration of the `for` loop of source `processModels`, acting on the
accumulated result. The source resolves limit/variants/options/cost before
the curated-only check and discards the results when the model is filtered
out; the resolvers are pure, so inlining the resolution into
`resolvedModelValue` (used only by the branch that keeps the model) is
semantically identical. -/
def processStep (existingCosts : JVal) (supportedModelsOnly : Bool)
    (acc : ProcessingResult) (model : ApiModel) : ProcessingResult :=
  if jsIncludes (model.name.getD "") "(No PII)" then acc
  else
    let displayName := getDisplayName model
    if jsIncludes (jsToLower displayName) "embedding" then acc
    else if isSkippedModel displayName then
      { acc with skippedModels := acc.skippedModels ++ [displayName] }
    else
      if supportedModelsOnly && !(isModelSupported displayName) then
        { acc with unsupportedModels := acc.unsupportedModels ++ [displayName] }
      else
        { acc with models := setKey acc.models displayName (resolvedModelValue existingCosts model) }

/-- The `for` loop of source `processModels`. -/
def processGo (existingCosts : JVal) (supportedModelsOnly : Bool) :
    List ApiModel → ProcessingResult → ProcessingResult
  | [], acc => acc
  | m :: rest, acc =>
    processGo existingCosts supportedModelsOnly rest
      (processStep existingCosts supportedModelsOnly acc m)

/-- Source `processModels(modelsList, existingCosts, supportedModelsOnly)`. -/
def processModels (modelsList : List ApiModel) (existingCosts : JVal)
    (supportedModelsOnly : Bool) : ProcessingResult :=
  processGo existingCosts supportedModelsOnly modelsList ⟨[], [], []⟩

/-- Source `buildProviderConfig(existingConfig, models, apiBaseURL)`: a fresh
provider block with exactly the fields `npm`, `name`, `env`, `options` and
`models`; `npm`/`name` and the `options.baseURL`/`options.timeout` defaults
are taken from the existing provider block when truthy (`timeout` when
non-nullish), unknown fields of the existing `options` object survive via
the object spread, and `models` is replaced wholesale. -/
def buildProviderConfig (existingConfig models : JVal) (apiBaseURL : String) : JVal :=
  let existingProvider := asObject (optField (getField existingConfig "provider") "nexos-ai")
  let existingEnv := uniqueStrings (optField existingProvider "env")
  .obj [
    ("npm", jsOrD (optField existingProvider "npm") (.str "@crazy-goat/nexos-provider")),
    ("name", jsOrD (optField existingProvider "name") (.str "Nexos AI")),
    ("env", .arr ((uniqueStrings (some (.arr (JVal.str "NEXOS_API_KEY" :: existingEnv.map JVal.str)))).map JVal.str)),
    ("options", .obj (setKey (setKey
        (spreadOpt (asObject (optField existingProvider "options")))
        "baseURL" (jsOrD (optField (optField existingProvider "options") "baseURL") (.str (apiBaseURL ++ "/"))))
        "timeout" (nullishD (optField (optField existingProvider "options") "timeout") (jq 300000)))),
    ("models", models)]

/-- Source `buildConfig(existingConfig, providerConfig)`: the object literal
starts with the fixed `$schema`, then spreads the existing configuration
(whose own `$schema`, if any, overrides the fixed one), then binds
`provider` to the existing provider map spread plus the `nexos-ai` block. -/
def buildConfig (existingConfig providerConfig : JVal) : JVal :=
  .obj (setKey
    (objExtend [("$schema", .str "https://opencode.ai/config.json")] (spreadVal existingConfig))
    "provider"
    (.obj (setKey (spreadOpt (getField existingConfig "provider")) "nexos-ai" providerConfig)))

/-- Whitespace characters skipped by JS `parseFloat` (ASCII portion). -/
def isJsSpace (c : Char) : Bool :=
  c == ' ' || c == '\t' || c == '\n' || c == '\r' || c == '\x0b' || c == '\x0c'

/-- Numeric value of a digit string (most significant first). -/
def digitsToNat (ds : List Char) : Nat :=
  ds.foldl (fun a c => a * 10 + (c.toNat - 48)) 0

/-- Exponent suffix of a JS decimal literal: `e`/`E`, optional sign, digits.
Returns the signed exponent, or `0` when the suffix is absent or malformed
(a malformed suffix is simply not part of the parsed prefix). -/
def parseExponent (cs : List Char) : Bool × Nat :=
  match cs with
  | c :: rest =>
    if c == 'e' || c == 'E' then
      let (neg, rest2) : Bool × List Char := match rest with
        | '+' :: r => (false, r)
        | '-' :: r => (true, r)
        | _ => (false, rest)
      let ds := (rest2.span Char.isDigit).1
      if ds.isEmpty then (false, 0) else (neg, digitsToNat ds)
    else (false, 0)
  | [] => (false, 0)

/-- JS `parseFloat`: after skipping leading whitespace and an optional sign,
the longest prefix that is `Infinity` or a decimal literal (digits, optional
fraction, optional exponent) is converted; with no such prefix the result is
`NaN`. Finite values are exact rationals (double rounding is not modelled;
every literal compared by a theorem in this file is exactly representable). -/
def jsParseFloat (s : String) : JNum :=
  let cs := s.data.dropWhile isJsSpace
  let (neg, cs) : Bool × List Char := match cs with
    | '+' :: rest => (false, rest)
    | '-' :: rest => (true, rest)
    | _ => (false, cs)
  if "Infinity".data.isPrefixOf cs then
    if neg then .negInf else .posInf
  else
    let (intDs, cs1) := cs.span Char.isDigit
    let (fracDs, cs2) : List Char × List Char := match cs1 with
      | '.' :: rest => rest.span Char.isDigit
      | _ => ([], cs1)
    if intDs.isEmpty && fracDs.isEmpty then .nan
    else
      let den : Nat := 10 ^ fracDs.length
      let mantNum : Nat := digitsToNat intDs * den + digitsToNat fracDs
      let sign : Int := if neg then -1 else 1
      let (eneg, e) := parseExponent cs2
      .fin (if eneg then mkRat (sign * (mantNum : Int)) (den * 10 ^ e)
            else mkRat (sign * ((mantNum * 10 ^ e : Nat) : Int)) den)

/-- Whether a `JNum` is NaN (JS `isNaN` on a number). -/
def jnumIsNaN : JNum → Bool
  | .nan => true
  | _ => false

/-- One field block of the cost object constructed by the custom-cost editor
(source `configureCustomCosts`): a non-empty answer whose `parseFloat` is
not NaN is used (`cost[k] = parseFloat(answer)`); otherwise the current cost
field is kept when defined (`cost[k] = currentCost[k]`) and omitted when
not. All four blocks of the source have this shape. -/
def costField (currentCost : JVal) (fs : List (String × JVal)) (k : String)
    (answer : String) : List (String × JVal) :=
  if answer != "" && !(jnumIsNaN (jsParseFloat answer)) then
    setKey fs k (.num (jsParseFloat answer))
  else match getField currentCost k with
    | some v => setKey fs k v
    | none => fs

/-- The cost object constructed by one round of the custom-cost editor
(source `configureCustomCosts`, the block building `cost` from the four
prompt answers), starting from `{}` and treating `input`, `output`,
`cache_read`, `cache_write` in order. -/
def buildCustomCost (currentCost : JVal)
    (newInput newOutput newCacheRead newCacheWrite : String) : JVal :=
  .obj (costField currentCost
    (costField currentCost
      (costField currentCost
        (costField currentCost [] "input" newInput)
        "output" newOutput)
      "cache_read" newCacheRead)
    "cache_write" newCacheWrite)

/-- Address of a mutable registry entry cell. -/
abbrev Addr := Nat

/-- Aliasing model of the registry storage: one mutable cell per registry
entry, in registry order. A JS object reference is an address; updating the
object in place updates the cell. This one-level heap is what distinguishes
`getModelConfig` (source: `SUPPORTED_MODELS[displayName] || null`, handing
out the stored object itself) from a deep-copying lookup, which would
allocate a fresh cell. -/
structure RegHeap where
  cells : List JVal

/-- The registry storage at process start: the cells hold exactly the
`SUPPORTED_MODELS` entry values. -/
def registryHeap0 : RegHeap := ⟨SUPPORTED_MODELS.map (·.2)⟩

/-- Position of the first field with key `k` in a field list. -/
def findKeyIdx : List (String × JVal) → String → Option Nat
  | [], _ => none
  | p :: rest, k => if p.1 == k then some 0 else (findKeyIdx rest k).map (· + 1)

/-- Reference semantics of source `getModelConfig`: property lookup on the
registry object yields the reference to the stored entry (no clone), i.e.
the address of its cell; an unknown name yields `null` (`none`). -/
def getModelConfigRef (displayName : String) : Option Addr :=
  findKeyIdx SUPPORTED_MODELS displayName

/-- Dereference an entry cell. -/
def readCell (h : RegHeap) (a : Addr) : Option JVal :=
  h.cells[a]?

/-- In-place mutation of the object stored in a cell (e.g. assigning one of
its properties replaces the cell contents with the updated object). -/
def writeCell (h : RegHeap) (a : Addr) (v : JVal) : RegHeap :=
  ⟨h.cells.set a v⟩

/-! ### Lemmas about the object operations -/

theorem findKey_setKey_self (fs : List (String × JVal)) (k : String) (v : JVal) :
    findKey (setKey fs k v) k = some v := by
  induction fs with
  | nil => simp [setKey, findKey]
  | cons p rest ih =>
    by_cases hp : (p.1 == k) = true
    · rw [setKey, if_pos hp, findKey, if_pos (by simp)]
    · rw [setKey, if_neg hp, findKey, if_neg hp, ih]

theorem findKey_setKey_ne (fs : List (String × JVal)) {k k' : String} (v : JVal)
    (hne : k' ≠ k) :
    findKey (setKey fs k v) k' = findKey fs k' := by
  have hkk : (k == k') = false := by
    simp only [beq_eq_false_iff_ne, ne_eq]
    exact fun hh => hne hh.symm
  induction fs with
  | nil => simp [setKey, findKey, hkk]
  | cons p rest ih =>
    by_cases hp : (p.1 == k) = true
    · rw [setKey, if_pos hp, findKey, if_neg (by simpa using hkk), findKey,
        if_neg (by rw [show p.1 = k from by simpa using hp]; simpa using hkk)]
    · rw [setKey, if_neg hp, findKey, findKey]
      by_cases hq : (p.1 == k') = true
      · rw [if_pos hq, if_pos hq]
      · rw [if_neg hq, if_neg hq, ih]

theorem getField_setKey_self (fs : List (String × JVal)) (k : String) (v : JVal) :
    getField (.obj (setKey fs k v)) k = some v :=
  findKey_setKey_self fs k v

theorem getField_setKey_ne (fs : List (String × JVal)) {k k' : String} (v : JVal)
    (hne : k' ≠ k) :
    getField (.obj (setKey fs k v)) k' = getField (.obj fs) k' :=
  findKey_setKey_ne fs v hne

theorem mem_setKey {fs : List (String × JVal)} {k : String} {v : JVal}
    {p : String × JVal} (h : p ∈ setKey fs k v) : p = (k, v) ∨ p ∈ fs := by
  induction fs with
  | nil => simpa [setKey] using h
  | cons q rest ih =>
    by_cases hq : (q.1 == k) = true
    · rw [setKey, if_pos hq] at h
      rcases List.mem_cons.mp h with h1 | h1
      · exact Or.inl h1
      · exact Or.inr (List.mem_cons_of_mem _ h1)
    · rw [setKey, if_neg hq] at h
      rcases List.mem_cons.mp h with h1 | h1
      · exact Or.inr (h1 ▸ List.mem_cons_self _ _)
      · rcases ih h1 with h2 | h2
        · exact Or.inl h2
        · exact Or.inr (List.mem_cons_of_mem _ h2)

theorem mem_keys_setKey {fs : List (String × JVal)} {k k' : String} {v : JVal} :
    k' ∈ (setKey fs k v).map (·.1) ↔ k' = k ∨ k' ∈ fs.map (·.1) := by
  induction fs with
  | nil => simp [setKey]
  | cons q rest ih =>
    by_cases hq : (q.1 == k) = true
    · rw [setKey, if_pos hq]
      have hqk : q.1 = k := by simpa using hq
      simp [hqk]
    · rw [setKey, if_neg hq]
      simp only [List.map_cons, List.mem_cons, ih]
      tauto

theorem mem_of_findKey {fs : List (String × JVal)} {k : String} {v : JVal}
    (h : findKey fs k = some v) : (k, v) ∈ fs := by
  induction fs with
  | nil => simp [findKey] at h
  | cons p rest ih =>
    rw [findKey] at h
    by_cases hp : (p.1 == k) = true
    · rw [if_pos hp] at h
      have : p = (k, v) := by
        obtain ⟨p1, p2⟩ := p
        simp at hp h
        simp [hp, h]
      exact this ▸ List.mem_cons_self _ _
    · rw [if_neg hp] at h
      exact List.mem_cons_of_mem _ (ih h)

theorem findKey_objExtend (fs : List (String × JVal)) :
    ∀ (acc : List (String × JVal)) (k : String),
    findKey (objExtend acc fs) k =
      match lastField fs k with
      | some w => some w
      | none => findKey acc k := by
  induction fs with
  | nil => intro acc k; rfl
  | cons p rest ih =>
    intro acc k
    have hstep : objExtend acc (p :: rest) = objExtend (setKey acc p.1 p.2) rest := by
      simp [objExtend]
    rw [hstep, ih]
    simp only [lastField]
    cases h : lastField rest k with
    | some w => rfl
    | none =>
      by_cases hp : (p.1 == k) = true
      · rw [if_pos hp]
        have hk : k = p.1 := by simpa using (beq_iff_eq.mp hp).symm
        rw [hk, findKey_setKey_self]
      · rw [if_neg hp]
        exact findKey_setKey_ne acc p.2 (fun hh => hp (by simp [hh]))

theorem findKeyIdx_spec {fs : List (String × JVal)} {k : String} {v : JVal}
    (h : findKey fs k = some v) :
    ∃ i, findKeyIdx fs k = some i ∧ (fs.map (·.2))[i]? = some v := by
  induction fs with
  | nil => simp [findKey] at h
  | cons p rest ih =>
    rw [findKey] at h
    by_cases hp : (p.1 == k) = true
    · rw [if_pos hp] at h
      refine ⟨0, ?_, ?_⟩
      · rw [findKeyIdx, if_pos hp]
      · simpa using h
    · rw [if_neg hp] at h
      obtain ⟨i, hi, hg⟩ := ih h
      refine ⟨i + 1, ?_, by simpa using hg⟩
      rw [findKeyIdx, if_neg hp, hi, Option.map_some']

/-- The string elements of a JS array, in order. -/
def jstrings : List JVal → List String :=
  List.filterMap (fun v => match v with | .str s => some s | _ => none)

theorem jstrings_map_str (l : List String) : jstrings (l.map JVal.str) = l := by
  induction l with
  | nil => rfl
  | cons s rest ih => simpa [jstrings, List.filterMap_cons] using ih

theorem uniqueStringsAux_spec (xs : List JVal) :
    ∀ acc : List String, acc.Nodup →
      ∃ add, uniqueStringsAux xs acc = acc ++ add ∧ (acc ++ add).Nodup ∧
        add.Sublist (jstrings xs) := by
  induction xs with
  | nil =>
    intro acc hacc
    exact ⟨[], by simp [uniqueStringsAux], by simpa using hacc, by simp⟩
  | cons v rest ih =>
    intro acc hacc
    cases v with
    | str s =>
      by_cases hmem : acc.contains s = true
      · obtain ⟨add, he, hnd, hsub⟩ := ih acc hacc
        refine ⟨add, ?_, hnd, ?_⟩
        · rw [uniqueStringsAux, if_pos hmem]; exact he
        · simpa [jstrings, List.filterMap_cons] using hsub.cons s
      · have hnotmem : s ∉ acc := by simpa using hmem
        have hacc' : (acc ++ [s]).Nodup := by
          simp [List.nodup_append, hacc, hnotmem]
        obtain ⟨add, he, hnd, hsub⟩ := ih (acc ++ [s]) hacc'
        refine ⟨s :: add, ?_, ?_, ?_⟩
        · rw [uniqueStringsAux, if_neg hmem, he, List.append_assoc]; rfl
        · rwa [List.append_assoc] at hnd
        · simpa [jstrings, List.filterMap_cons] using hsub.cons₂ s
    | num n => simpa [jstrings, List.filterMap_cons, uniqueStringsAux] using ih acc hacc
    | bool b => simpa [jstrings, List.filterMap_cons, uniqueStringsAux] using ih acc hacc
    | null => simpa [jstrings, List.filterMap_cons, uniqueStringsAux] using ih acc hacc
    | arr elems => simpa [jstrings, List.filterMap_cons, uniqueStringsAux] using ih acc hacc
    | obj fields => simpa [jstrings, List.filterMap_cons, uniqueStringsAux] using ih acc hacc

theorem mem_uniqueStringsAux (xs : List JVal) :
    ∀ (acc : List String) (s : String), s ∈ acc ∨ s ∈ jstrings xs →
      s ∈ uniqueStringsAux xs acc := by
  induction xs with
  | nil =>
    intro acc s h
    rcases h with h | h
    · simpa [uniqueStringsAux] using h
    · simp [jstrings] at h
  | cons v rest ih =>
    intro acc s h
    cases v with
    | str s' =>
      by_cases hmem : acc.contains s' = true
      · rw [uniqueStringsAux, if_pos hmem]
        rcases h with h | h
        · exact ih acc s (Or.inl h)
        · rcases (by simpa [jstrings, List.filterMap_cons] using h : s = s' ∨ s ∈ jstrings rest) with h1 | h1
          · exact ih acc s (Or.inl (h1 ▸ (by simpa using hmem)))
          · exact ih acc s (Or.inr h1)
      · rw [uniqueStringsAux, if_neg hmem]
        rcases h with h | h
        · exact ih _ s (Or.inl (List.mem_append_left _ h))
        · rcases (by simpa [jstrings, List.filterMap_cons] using h : s = s' ∨ s ∈ jstrings rest) with h1 | h1
          · exact ih _ s (Or.inl (List.mem_append_right _ (by simp [h1])))
          · exact ih _ s (Or.inr h1)
    | num n =>
      rcases h with h | h
      · exact ih acc s (Or.inl h)
      · exact ih acc s (Or.inr (by simpa [jstrings, List.filterMap_cons] using h))
    | bool b =>
      rcases h with h | h
      · exact ih acc s (Or.inl h)
      · exact ih acc s (Or.inr (by simpa [jstrings, List.filterMap_cons] using h))
    | null =>
      rcases h with h | h
      · exact ih acc s (Or.inl h)
      · exact ih acc s (Or.inr (by simpa [jstrings, List.filterMap_cons] using h))
    | arr elems =>
      rcases h with h | h
      · exact ih acc s (Or.inl h)
      · exact ih acc s (Or.inr (by simpa [jstrings, List.filterMap_cons] using h))
    | obj fields =>
      rcases h with h | h
      · exact ih acc s (Or.inl h)
      · exact ih acc s (Or.inr (by simpa [jstrings, List.filterMap_cons] using h))

/-- Well-formedness checks of one registry entry: the limit is present,
truthy, and has `context` and `output` fields, and the cost is present and
truthy. -/
def entryWF (p : String × JVal) : Bool :=
  (match getField p.2 "limit" with
   | some l => truthy l && hasField l "context" && hasField l "output"
   | none => false) &&
  (match getField p.2 "cost" with
   | some c => truthy c
   | none => false)

theorem supported_models_wf : SUPPORTED_MODELS.all entryWF = true := rfl

theorem getModelConfig_entryWF {d : String} {c : JVal}
    (h : getModelConfig d = some c) : entryWF (d, c) = true :=
  List.all_eq_true.mp supported_models_wf (d, c) (mem_of_findKey h)

theorem getModelLimit_eq (d : String) (am : Option ApiModel) :
    getModelLimit d am = match optField (getModelConfig d) "limit" with
      | some lim => if truthy lim then clone lim else limitFallback am
      | none => limitFallback am := rfl

theorem getModelLimit_fields (d : String) (am : Option ApiModel) :
    hasField (getModelLimit d am) "context" = true ∧
    hasField (getModelLimit d am) "output" = true := by
  rw [getModelLimit_eq]
  cases hc : optField (getModelConfig d) "limit" with
  | none =>
    simp [limitFallback, hasField, getField, findKey]
  | some lv =>
    simp only []
    by_cases ht : truthy lv = true
    · rw [if_pos ht]
      obtain ⟨cfg, hcfg⟩ : ∃ cfg, getModelConfig d = some cfg := by
        cases hg : getModelConfig d with
        | none => rw [hg] at hc; simp [optField] at hc
        | some cfg => exact ⟨cfg, rfl⟩
      have hwf := getModelConfig_entryWF hcfg
      rw [hcfg] at hc
      simp only [optField, Option.some_bind] at hc
      unfold entryWF at hwf
      simp only at hwf
      rw [hc] at hwf
      simp only [Bool.and_eq_true] at hwf
      exact ⟨by simpa [clone] using hwf.1.1.2, by simpa [clone] using hwf.1.2⟩
    · rw [if_neg ht]
      simp [limitFallback, hasField, getField, findKey]

/-! ### Branch equations and loop invariants of the catalog processor -/

theorem processStep_pii {ec : JVal} {b : Bool} {acc : ProcessingResult} {m : ApiModel}
    (h : jsIncludes (m.name.getD "") "(No PII)" = true) :
    processStep ec b acc m = acc := by
  unfold processStep
  rw [if_pos h]

theorem processStep_embedding {ec : JVal} {b : Bool} {acc : ProcessingResult} {m : ApiModel}
    (h1 : jsIncludes (m.name.getD "") "(No PII)" = false)
    (h2 : jsIncludes (jsToLower (getDisplayName m)) "embedding" = true) :
    processStep ec b acc m = acc := by
  simp [processStep, h1, h2]

theorem processStep_skip {ec : JVal} {b : Bool} {acc : ProcessingResult} {m : ApiModel}
    (h1 : jsIncludes (m.name.getD "") "(No PII)" = false)
    (h2 : jsIncludes (jsToLower (getDisplayName m)) "embedding" = false)
    (h3 : isSkippedModel (getDisplayName m) = true) :
    processStep ec b acc m = { acc with skippedModels := acc.skippedModels ++ [getDisplayName m] } := by
  simp [processStep, h1, h2, h3]

theorem processStep_unsupported {ec : JVal} {b : Bool} {acc : ProcessingResult} {m : ApiModel}
    (h1 : jsIncludes (m.name.getD "") "(No PII)" = false)
    (h2 : jsIncludes (jsToLower (getDisplayName m)) "embedding" = false)
    (h3 : isSkippedModel (getDisplayName m) = false)
    (h4 : (b && !(isModelSupported (getDisplayName m))) = true) :
    processStep ec b acc m =
      { acc with unsupportedModels := acc.unsupportedModels ++ [getDisplayName m] } := by
  simp [processStep, h1, h2, h3, h4]

theorem processStep_add {ec : JVal} {b : Bool} {acc : ProcessingResult} {m : ApiModel}
    (h1 : jsIncludes (m.name.getD "") "(No PII)" = false)
    (h2 : jsIncludes (jsToLower (getDisplayName m)) "embedding" = false)
    (h3 : isSkippedModel (getDisplayName m) = false)
    (h4 : (b && !(isModelSupported (getDisplayName m))) = false) :
    processStep ec b acc m =
      { acc with models := setKey acc.models (getDisplayName m) (resolvedModelValue ec m) } := by
  simp [processStep, h1, h2, h3, h4]

theorem processStep_cases (ec : JVal) (b : Bool) (acc : ProcessingResult) (m : ApiModel) :
    processStep ec b acc m = acc ∨
    (processStep ec b acc m =
      { acc with skippedModels := acc.skippedModels ++ [getDisplayName m] }) ∨
    (processStep ec b acc m =
      { acc with unsupportedModels := acc.unsupportedModels ++ [getDisplayName m] }) ∨
    (processStep ec b acc m =
      { acc with models := setKey acc.models (getDisplayName m) (resolvedModelValue ec m) }) := by
  cases hp : jsIncludes (m.name.getD "") "(No PII)" with
  | true => exact Or.inl (processStep_pii hp)
  | false =>
    cases he : jsIncludes (jsToLower (getDisplayName m)) "embedding" with
    | true => exact Or.inl (processStep_embedding hp he)
    | false =>
      cases hs : isSkippedModel (getDisplayName m) with
      | true => exact Or.inr (Or.inl (processStep_skip hp he hs))
      | false =>
        cases hu : b && !(isModelSupported (getDisplayName m)) with
        | true => exact Or.inr (Or.inr (Or.inl (processStep_unsupported hp he hs hu)))
        | false => exact Or.inr (Or.inr (Or.inr (processStep_add hp he hs hu)))

theorem keys_mono_processGo (ec : JVal) (b : Bool) (l : List ApiModel) :
    ∀ (acc : ProcessingResult) (k : String), k ∈ acc.models.map (·.1) →
      k ∈ (processGo ec b l acc).models.map (·.1) := by
  induction l with
  | nil => intro acc k h; exact h
  | cons m rest ih =>
    intro acc k h
    rw [processGo]
    refine ih _ k ?_
    rcases processStep_cases ec b acc m with hc | hc | hc | hc <;> rw [hc]
    · exact h
    · exact h
    · exact h
    · exact mem_keys_setKey.mpr (Or.inr h)

theorem unsupported_mono_processGo (ec : JVal) (b : Bool) (l : List ApiModel) :
    ∀ (acc : ProcessingResult) (k : String), k ∈ acc.unsupportedModels →
      k ∈ (processGo ec b l acc).unsupportedModels := by
  induction l with
  | nil => intro acc k h; exact h
  | cons m rest ih =>
    intro acc k h
    rw [processGo]
    refine ih _ k ?_
    rcases processStep_cases ec b acc m with hc | hc | hc | hc <;> rw [hc]
    · exact h
    · exact h
    · exact List.mem_append_left _ h
    · exact h

theorem keys_supported_processStep {ec : JVal} {acc : ProcessingResult} {m : ApiModel}
    (hinv : ∀ k ∈ acc.models.map (·.1), isModelSupported k = true) :
    ∀ k ∈ (processStep ec true acc m).models.map (·.1), isModelSupported k = true := by
  cases hp : jsIncludes (m.name.getD "") "(No PII)" with
  | true => rw [processStep_pii hp]; exact hinv
  | false =>
    cases he : jsIncludes (jsToLower (getDisplayName m)) "embedding" with
    | true => rw [processStep_embedding hp he]; exact hinv
    | false =>
      cases hs : isSkippedModel (getDisplayName m) with
      | true => rw [processStep_skip hp he hs]; exact hinv
      | false =>
        cases hu : true && !(isModelSupported (getDisplayName m)) with
        | true => rw [processStep_unsupported hp he hs hu]; exact hinv
        | false =>
          rw [processStep_add hp he hs hu]
          intro k hk
          rcases mem_keys_setKey.mp hk with rfl | hk2
          · simpa using hu
          · exact hinv k hk2

theorem keys_supported_processGo (ec : JVal) (l : List ApiModel) :
    ∀ (acc : ProcessingResult),
      (∀ k ∈ acc.models.map (·.1), isModelSupported k = true) →
      ∀ k ∈ (processGo ec true l acc).models.map (·.1), isModelSupported k = true := by
  induction l with
  | nil => intro acc hinv; exact hinv
  | cons m rest ih =>
    intro acc hinv
    rw [processGo]
    exact ih _ (keys_supported_processStep hinv)

theorem unsupported_mem_processGo {ec : JVal} {b : Bool} {l : List ApiModel} {m : ApiModel}
    (hm : m ∈ l)
    (h1 : jsIncludes (m.name.getD "") "(No PII)" = false)
    (h2 : jsIncludes (jsToLower (getDisplayName m)) "embedding" = false)
    (h3 : isSkippedModel (getDisplayName m) = false)
    (h4 : (b && !(isModelSupported (getDisplayName m))) = true) :
    ∀ acc : ProcessingResult, getDisplayName m ∈ (processGo ec b l acc).unsupportedModels := by
  induction l with
  | nil => cases hm
  | cons hd tl ih =>
    intro acc
    rw [processGo]
    rcases List.mem_cons.mp hm with rfl | hm2
    · refine unsupported_mono_processGo ec b tl _ _ ?_
      rw [processStep_unsupported h1 h2 h3 h4]
      exact List.mem_append_right _ (List.mem_singleton.mpr rfl)
    · exact ih hm2 _

theorem key_mem_processGo {ec : JVal} {b : Bool} {l : List ApiModel} {m : ApiModel}
    (hm : m ∈ l)
    (h1 : jsIncludes (m.name.getD "") "(No PII)" = false)
    (h2 : jsIncludes (jsToLower (getDisplayName m)) "embedding" = false)
    (h3 : isSkippedModel (getDisplayName m) = false)
    (h4 : (b && !(isModelSupported (getDisplayName m))) = false) :
    ∀ acc : ProcessingResult, getDisplayName m ∈ (processGo ec b l acc).models.map (·.1) := by
  induction l with
  | nil => cases hm
  | cons hd tl ih =>
    intro acc
    rw [processGo]
    rcases List.mem_cons.mp hm with rfl | hm2
    · refine keys_mono_processGo ec b tl _ _ ?_
      rw [processStep_add h1 h2 h3 h4]
      exact mem_keys_setKey.mpr (Or.inl rfl)
    · exact ih hm2 _

/-! ### Shape of the resolved model values (for the output-map invariant) -/

theorem resolvedModelValue_name (ec : JVal) (m : ApiModel) :
    getField (resolvedModelValue ec m) "name" = some (.str (getDisplayName m)) := rfl

theorem resolvedModelValue_limit (ec : JVal) (m : ApiModel) :
    getField (resolvedModelValue ec m) "limit" =
      some (getModelLimit (getDisplayName m) (some m)) := rfl

theorem resolvedModelValue_options (ec : JVal) (m : ApiModel) :
    getField (resolvedModelValue ec m) "options" =
      if truthyOpt (getModelOptions (getDisplayName m)) then
        some ((getModelOptions (getDisplayName m)).getD .null)
      else none := by
  unfold resolvedModelValue
  by_cases ho : truthyOpt (getModelOptions (getDisplayName m)) = true
  · simp only [ho, if_true]
    simp [getField, findKey]
  · simp only [ho, if_false]
    by_cases hv : truthyOpt (getModelVariants (getDisplayName m)) = true
    · by_cases hc : truthy (getModelCost (getDisplayName m) ec) = true
      · simp [getField, findKey, ho, hv, hc]
      · simp [getField, findKey, ho, hv, hc]
    · by_cases hc : truthy (getModelCost (getDisplayName m) ec) = true
      · simp [getField, findKey, ho, hv, hc]
      · simp [getField, findKey, ho, hv, hc]

theorem resolvedModelValue_variants (ec : JVal) (m : ApiModel) :
    getField (resolvedModelValue ec m) "variants" =
      if truthyOpt (getModelVariants (getDisplayName m)) then
        some ((getModelVariants (getDisplayName m)).getD .null)
      else none := by
  unfold resolvedModelValue
  by_cases ho : truthyOpt (getModelOptions (getDisplayName m)) = true
  · by_cases hv : truthyOpt (getModelVariants (getDisplayName m)) = true
    · simp [getField, findKey, ho, hv]
    · by_cases hc : truthy (getModelCost (getDisplayName m) ec) = true
      · simp [getField, findKey, ho, hv, hc]
      · simp [getField, findKey, ho, hv, hc]
  · by_cases hv : truthyOpt (getModelVariants (getDisplayName m)) = true
    · simp [getField, findKey, ho, hv]
    · by_cases hc : truthy (getModelCost (getDisplayName m) ec) = true
      · simp [getField, findKey, ho, hv, hc]
      · simp [getField, findKey, ho, hv, hc]

theorem resolvedModelValue_cost (ec : JVal) (m : ApiModel) :
    getField (resolvedModelValue ec m) "cost" =
      if truthy (getModelCost (getDisplayName m) ec) then
        some (getModelCost (getDisplayName m) ec)
      else none := by
  unfold resolvedModelValue
  by_cases ho : truthyOpt (getModelOptions (getDisplayName m)) = true
  · by_cases hv : truthyOpt (getModelVariants (getDisplayName m)) = true
    · by_cases hc : truthy (getModelCost (getDisplayName m) ec) = true
      · simp [getField, findKey, ho, hv, hc]
      · simp [getField, findKey, ho, hv, hc]
    · by_cases hc : truthy (getModelCost (getDisplayName m) ec) = true
      · simp [getField, findKey, ho, hv, hc]
      · simp [getField, findKey, ho, hv, hc]
  · by_cases hv : truthyOpt (getModelVariants (getDisplayName m)) = true
    · by_cases hc : truthy (getModelCost (getDisplayName m) ec) = true
      · simp [getField, findKey, ho, hv, hc]
      · simp [getField, findKey, ho, hv, hc]
    · by_cases hc : truthy (getModelCost (getDisplayName m) ec) = true
      · simp [getField, findKey, ho, hv, hc]
      · simp [getField, findKey, ho, hv, hc]

/-- The invariant satisfied by every entry of the output model map: the value
carries its own key as `name`, a limit object with both `context` and
`output`, and the `options`/`variants`/`cost` keys exactly when the
corresponding resolution for that key is truthy. -/
def modelValueOK (ec : JVal) (k : String) (v : JVal) : Prop :=
  getField v "name" = some (.str k) ∧
  (∃ lim, getField v "limit" = some lim ∧
    hasField lim "context" = true ∧ hasField lim "output" = true) ∧
  ((getField v "options").isSome = truthyOpt (getModelOptions k)) ∧
  ((getField v "variants").isSome = truthyOpt (getModelVariants k)) ∧
  ((getField v "cost").isSome = truthy (getModelCost k ec))

theorem resolvedModelValue_ok (ec : JVal) (m : ApiModel) :
    modelValueOK ec (getDisplayName m) (resolvedModelValue ec m) := by
  refine ⟨resolvedModelValue_name ec m,
    ⟨getModelLimit (getDisplayName m) (some m), resolvedModelValue_limit ec m,
      (getModelLimit_fields _ _).1, (getModelLimit_fields _ _).2⟩, ?_, ?_, ?_⟩
  · rw [resolvedModelValue_options]
    by_cases ho : truthyOpt (getModelOptions (getDisplayName m)) = true
    · simp [ho]
    · simp [ho]
  · rw [resolvedModelValue_variants]
    by_cases hv : truthyOpt (getModelVariants (getDisplayName m)) = true
    · simp [hv]
    · simp [hv]
  · rw [resolvedModelValue_cost]
    by_cases hc : truthy (getModelCost (getDisplayName m) ec) = true
    · simp [hc]
    · simp [hc]

theorem modelsOK_processStep {ec : JVal} {b : Bool} {acc : ProcessingResult} {m : ApiModel}
    (hinv : ∀ p ∈ acc.models, modelValueOK ec p.1 p.2) :
    ∀ p ∈ (processStep ec b acc m).models, modelValueOK ec p.1 p.2 := by
  rcases processStep_cases ec b acc m with hc | hc | hc | hc <;> rw [hc]
  · exact hinv
  · exact hinv
  · exact hinv
  · intro p hp
    rcases mem_setKey hp with rfl | hp2
    · exact resolvedModelValue_ok ec m
    · exact hinv p hp2

theorem modelsOK_processGo (ec : JVal) (b : Bool) (l : List ApiModel) :
    ∀ acc : ProcessingResult, (∀ p ∈ acc.models, modelValueOK ec p.1 p.2) →
      ∀ p ∈ (processGo ec b l acc).models, modelValueOK ec p.1 p.2 := by
  induction l with
  | nil => intro acc hinv; exact hinv
  | cons m rest ih =>
    intro acc hinv
    rw [processGo]
    exact ih _ (modelsOK_processStep hinv)

/-! ### Concrete example inputs used by the claims -/

/-- An API model whose display name is the registry key `Claude Opus 4.5`. -/
def claudeOpusModel : ApiModel := { id := "claude-opus-4-5", name := some "Claude Opus 4.5" }

/-- An API model whose display name is not in the registry. -/
def unknownModel : ApiModel := { id := "unknown-model", name := some "Unknown Model" }

/-- An API model with no `name` field whose `id` carries the privacy tag. -/
def noPiiIdModel : ApiModel := { id := "Test (No PII)" }

/-! ### Claim theorems -/

/-- C8: `processModels` is pure in its three inputs: two runs on the same API
model list, the same existing-cost map and the same curated-only flag produce
identical results — the same model map (same keys, same insertion order, same
values) and the same skipped and unsupported lists. In this embedding
`processModels` is a function of exactly these three inputs, so determinism
is definitional; the substance is that the embedding of the source loop
needed no other state (no counters, timestamps or I/O). -/
theorem C8_processModels_pure (modelsList : List ApiModel) (existingCosts : JVal)
    (supportedModelsOnly : Bool) (r1 r2 : ProcessingResult)
    (h1 : r1 = processModels modelsList existingCosts supportedModelsOnly)
    (h2 : r2 = processModels modelsList existingCosts supportedModelsOnly) :
    r1.models = r2.models ∧ r1.skippedModels = r2.skippedModels ∧
    r1.unsupportedModels = r2.unsupportedModels := by
  subst h1; subst h2
  exact ⟨rfl, rfl, rfl⟩

/-- C8 witness: the determinism theorem applied to two runs on a concrete
input list. -/
theorem C8_processModels_pure_witness :
    (processModels [claudeOpusModel, unknownModel] (.obj []) true).models =
      (processModels [claudeOpusModel, unknownModel] (.obj []) true).models :=
  (C8_processModels_pure [claudeOpusModel, unknownModel] (.obj []) true _ _ rfl rfl).1

/-- C3: `getModelCost` resolves a cost for every display name, in priority
order: (1) a truthy existing override for the exact name (cost overrides of
the data model are objects, hence truthy) is returned as-is, with no
back-filling from registry defaults — in particular an override
`{input: 10, output: 20}` for the known model `Claude Opus 4.5` comes back
exactly, with no cache fields added; (2) otherwise, when the name is in the
registry, a (deep copy of the) registry cost; (3) otherwise a (deep copy of
the) fallback cost constant. The three cases are exhaustive, so the function
never reports "not found". -/
theorem C3_getModelCost_priority (displayName : String) (existingCosts : JVal) :
    (∀ v, truthy existingCosts = true → getField existingCosts displayName = some v →
      truthy v = true → getModelCost displayName existingCosts = v) ∧
    (¬ (truthy existingCosts = true ∧ truthyOpt (getField existingCosts displayName) = true) →
      ∀ c, getModelConfig displayName = some c →
        ∃ cost, getField c "cost" = some cost ∧ truthy cost = true ∧
          getModelCost displayName existingCosts = clone cost) ∧
    (¬ (truthy existingCosts = true ∧ truthyOpt (getField existingCosts displayName) = true) →
      getModelConfig displayName = none →
      getModelCost displayName existingCosts = clone DEFAULT_FALLBACK_COSTS) ∧
    (getModelCost "Claude Opus 4.5"
        (.obj [("Claude Opus 4.5", .obj [("input", jq 10), ("output", jq 20)])]) =
      .obj [("input", jq 10), ("output", jq 20)] ∧
     getField (getModelCost "Claude Opus 4.5"
        (.obj [("Claude Opus 4.5", .obj [("input", jq 10), ("output", jq 20)])])) "cache_read" =
      none) := by
  refine ⟨?_, ?_, ?_, rfl, rfl⟩
  · intro v hec hget hv
    unfold getModelCost
    rw [if_pos (by rw [hget]; simp [hec, truthyOpt, hv]), hget]
    rfl
  · intro hno c hc
    have hcond : (truthy existingCosts && truthyOpt (getField existingCosts displayName)) = false := by
      cases hA : truthy existingCosts with
      | false => simp [hA]
      | true =>
        cases hB : truthyOpt (getField existingCosts displayName) with
        | false => simp [hB]
        | true => exact absurd ⟨hA, hB⟩ hno
    have hwf := getModelConfig_entryWF hc
    unfold entryWF at hwf
    simp only [Bool.and_eq_true] at hwf
    obtain ⟨-, hcost⟩ := hwf
    cases hgc : getField c "cost" with
    | none => rw [hgc] at hcost; simp at hcost
    | some cost =>
      rw [hgc] at hcost
      simp only at hcost
      refine ⟨cost, rfl, hcost, ?_⟩
      unfold getModelCost
      rw [if_neg (by rw [hcond]; simp), hc]
      simp only [optField, Option.some_bind, hgc, hcost, if_true]
  · intro hno hc
    have hcond : (truthy existingCosts && truthyOpt (getField existingCosts displayName)) = false := by
      cases hA : truthy existingCosts with
      | false => simp [hA]
      | true =>
        cases hB : truthyOpt (getField existingCosts displayName) with
        | false => simp [hB]
        | true => exact absurd ⟨hA, hB⟩ hno
    unfold getModelCost
    rw [if_neg (by rw [hcond]; simp), hc]
    rfl

/-- C3 witness: the priority theorem applied at concrete inputs — an
override for a known model, a registry name with no override, and an unknown
name with no override. -/
theorem C3_getModelCost_priority_witness :
    getModelCost "Claude Opus 4.5"
        (.obj [("Claude Opus 4.5", .obj [("input", jq 10), ("output", jq 20)])]) =
      .obj [("input", jq 10), ("output", jq 20)] ∧
    getModelCost "Kimi K2.5" .null =
      clone (.obj [("input", jdec 6 10), ("output", jq 3), ("cache_read", jdec 1 10)]) ∧
    getModelCost "Unknown Model" .null = clone DEFAULT_FALLBACK_COSTS := by
  refine ⟨?_, ?_, ?_⟩
  · exact (C3_getModelCost_priority "Claude Opus 4.5"
      (.obj [("Claude Opus 4.5", .obj [("input", jq 10), ("output", jq 20)])])).1
      (.obj [("input", jq 10), ("output", jq 20)]) rfl rfl rfl
  · obtain ⟨cost, h1, -, h3⟩ := (C3_getModelCost_priority "Kimi K2.5" .null).2.1
      (by simp [truthy]) _ rfl
    have hco : some (JVal.obj [("input", jdec 6 10), ("output", jq 3), ("cache_read", jdec 1 10)]) =
        some cost := h1
    cases hco
    exact h3
  · exact (C3_getModelCost_priority "Unknown Model" .null).2.2.1 (by simp [truthy]) rfl

/-- C5: with curated-only filtering on, every processed model (one that
passes the privacy, embedding and skip-prefix filters) whose display name is
not in the registry is recorded into `unsupportedModels` and its name is
absent from the output map; for the list `["Claude Opus 4.5", "Unknown
Model"]` the output map holds exactly `Claude Opus 4.5` and
`unsupportedModels` is exactly `["Unknown Model"]`. (The source resolves
cost/limit before the filter and discards the result; the resolvers are
pure, so the discarded resolution has no observable effect in this
embedding.) -/
theorem C5_curated_only_filtering (modelsList : List ApiModel) (existingCosts : JVal) :
    (∀ m ∈ modelsList,
      jsIncludes (m.name.getD "") "(No PII)" = false →
      jsIncludes (jsToLower (getDisplayName m)) "embedding" = false →
      isSkippedModel (getDisplayName m) = false →
      isModelSupported (getDisplayName m) = false →
      getDisplayName m ∈ (processModels modelsList existingCosts true).unsupportedModels ∧
      getDisplayName m ∉ (processModels modelsList existingCosts true).models.map (·.1)) ∧
    ((processModels [claudeOpusModel, unknownModel] (.obj []) true).models.map (·.1) =
      ["Claude Opus 4.5"] ∧
     (processModels [claudeOpusModel, unknownModel] (.obj []) true).unsupportedModels =
      ["Unknown Model"]) := by
  refine ⟨?_, rfl, rfl⟩
  intro m hm h1 h2 h3 hunsup
  constructor
  · exact unsupported_mem_processGo hm h1 h2 h3 (by simp [hunsup]) _
  · intro hmem
    have := keys_supported_processGo existingCosts modelsList ⟨[], [], []⟩ (by simp)
      (getDisplayName m) hmem
    rw [hunsup] at this
    cases this

/-- C5 witness: the filtering theorem applied to a concrete one-model list
whose display name is not in the registry. -/
theorem C5_curated_only_filtering_witness :
    "Unknown Model" ∈ (processModels [unknownModel] (.obj []) true).unsupportedModels ∧
    "Unknown Model" ∉ (processModels [unknownModel] (.obj []) true).models.map (·.1) :=
  (C5_curated_only_filtering [unknownModel] (.obj [])).1 unknownModel
    (List.mem_singleton.mpr rfl) rfl rfl rfl rfl

/-- C9: the privacy-tag exclusion inspects only the raw `name` field, never
`id`: an API model with no `name` whose `id` contains `(No PII)` is not
silently skipped — its display name is its `id` and, absent the other
exclusions (embedding filter, skip prefix, curated-only filter), that id
appears among the keys of the output map. -/
theorem C9_privacy_tag_checks_name_only (modelsList : List ApiModel) (existingCosts : JVal)
    (supportedModelsOnly : Bool) (m : ApiModel)
    (hm : m ∈ modelsList)
    (hname : m.name = none)
    (hpii : jsIncludes m.id "(No PII)" = true)
    (hemb : jsIncludes (jsToLower m.id) "embedding" = false)
    (hskip : isSkippedModel m.id = false)
    (hcur : supportedModelsOnly = true → isModelSupported m.id = true) :
    getDisplayName m = m.id ∧
    m.id ∈ (processModels modelsList existingCosts supportedModelsOnly).models.map (·.1) := by
  have hdisp : getDisplayName m = m.id := by
    unfold getDisplayName
    rw [hname]
  have hpiiCheck : jsIncludes (m.name.getD "") "(No PII)" = false := by
    rw [hname]
    rfl
  have h4 : (supportedModelsOnly && !(isModelSupported (getDisplayName m))) = false := by
    cases hb : supportedModelsOnly with
    | false => rfl
    | true => rw [hdisp, hcur hb]; rfl
  refine ⟨hdisp, ?_⟩
  have hkey : getDisplayName m ∈
      (processGo existingCosts supportedModelsOnly modelsList ⟨[], [], []⟩).models.map (·.1) :=
    key_mem_processGo hm hpiiCheck (by rwa [hdisp]) (by rwa [hdisp]) h4 ⟨[], [], []⟩
  rw [hdisp] at hkey
  exact hkey

/-- C9 witness: a concrete model with no `name` and a privacy-tagged `id`
lands in the output map under its id. -/
theorem C9_privacy_tag_checks_name_only_witness :
    getDisplayName noPiiIdModel = "Test (No PII)" ∧
    "Test (No PII)" ∈ (processModels [noPiiIdModel] (.obj []) false).models.map (·.1) :=
  C9_privacy_tag_checks_name_only [noPiiIdModel] (.obj []) false noPiiIdModel
    (List.mem_singleton.mpr rfl) rfl rfl rfl rfl (fun h => by cases h)

/-- C10: every entry of the output model map carries its key as its `name`
field and a limit object with both `context` and `output`; the `options`,
`variants` and `cost` keys are present exactly when the corresponding
resolution for that key is truthy (`modelValueOK` spells this out). -/
theorem C10_output_map_shape (modelsList : List ApiModel) (existingCosts : JVal)
    (supportedModelsOnly : Bool) :
    ∀ p ∈ (processModels modelsList existingCosts supportedModelsOnly).models,
      modelValueOK existingCosts p.1 p.2 :=
  modelsOK_processGo existingCosts supportedModelsOnly modelsList ⟨[], [], []⟩ (by simp)

/-- C10 witness: the shape invariant instantiated at the single entry
produced from a concrete model list. -/
theorem C10_output_map_shape_witness :
    modelValueOK (.obj []) "Claude Opus 4.5" (resolvedModelValue (.obj []) claudeOpusModel) :=
  C10_output_map_shape [claudeOpusModel] (.obj []) true
    ("Claude Opus 4.5", resolvedModelValue (.obj []) claudeOpusModel)
    (List.mem_singleton.mpr rfl)

/-- The element list of the provider block env field of a configuration
(empty when the field is absent or not an array). -/
def envElems (cfg : JVal) : List JVal :=
  match optField (asObject (optField (getField cfg "provider") "nexos-ai")) "env" with
  | some (.arr xs) => xs
  | _ => []

/-- A configuration whose provider env list contains duplicates, a
non-string entry, and the required variable out of first position. -/
def cfgEnvExample : JVal :=
  .obj [("provider", .obj [("nexos-ai", .obj [("env",
    .arr [.str "A", .num (.fin 3), .str "NEXOS_API_KEY", .str "A", .str "B"])])])]

/-- C7: for every existing configuration whose provider env field is absent,
falsy, or an array (the shapes the source handles without throwing), the env
list of the provider block built by `buildProviderConfig` is a string array
that is duplicate-free, starts with `NEXOS_API_KEY`, preserves the relative
order of the existing string entries (the tail is an order-preserving
subsequence of them), and retains every existing string entry. -/
theorem C7_env_invariant (cfg models : JVal) (apiBaseURL : String)
    (henv : ∀ v, optField (asObject (optField (getField cfg "provider") "nexos-ai")) "env" = some v →
      truthy v = true → ∃ xs, v = .arr xs) :
    ∃ rest : List String,
      getField (buildProviderConfig cfg models apiBaseURL) "env" =
        some (.arr (("NEXOS_API_KEY" :: rest).map JVal.str)) ∧
      ("NEXOS_API_KEY" :: rest).Nodup ∧
      rest.Sublist (jstrings (envElems cfg)) ∧
      (∀ s ∈ jstrings (envElems cfg), s ∈ "NEXOS_API_KEY" :: rest) := by
  have hfield : getField (buildProviderConfig cfg models apiBaseURL) "env" =
      some (.arr ((uniqueStringsAux
        ((uniqueStrings (optField (asObject (optField (getField cfg "provider") "nexos-ai")) "env")).map JVal.str)
        ["NEXOS_API_KEY"]).map JVal.str)) := rfl
  set existingEnv :=
    uniqueStrings (optField (asObject (optField (getField cfg "provider") "nexos-ai")) "env") with hee
  obtain ⟨add, heq, hnd, hsub⟩ :=
    uniqueStringsAux_spec (existingEnv.map JVal.str) ["NEXOS_API_KEY"] (by simp)
  have hexist_sub : existingEnv.Sublist (jstrings (envElems cfg)) := by
    rw [hee]
    cases hopt : optField (asObject (optField (getField cfg "provider") "nexos-ai")) "env" with
    | none => simp [uniqueStrings, envElems, hopt]
    | some v =>
      by_cases ht : truthy v = true
      · obtain ⟨xs, rfl⟩ := henv v hopt ht
        obtain ⟨add2, heq2, -, hsub2⟩ := uniqueStringsAux_spec xs [] (by simp)
        have : uniqueStrings (some (.arr xs)) = add2 := by
          rw [uniqueStrings]
          simpa using heq2
        rw [this]
        simpa [envElems, hopt] using hsub2
      · cases v with
        | str s =>
          have hs : s = "" := by simpa [truthy] using ht
          subst hs
          simp [uniqueStrings, envElems, hopt, uniqueStringsAux]
        | num n =>
          cases n <;> simp [uniqueStrings, envElems, hopt]
        | bool b => simp [uniqueStrings, envElems, hopt]
        | null => simp [uniqueStrings, envElems, hopt]
        | arr xs => simp [truthy] at ht
        | obj fs => simp [truthy] at ht
  have hexist_mem : ∀ s ∈ jstrings (envElems cfg), s ∈ existingEnv := by
    intro s hs
    rw [hee]
    cases hopt : optField (asObject (optField (getField cfg "provider") "nexos-ai")) "env" with
    | none => simp [envElems, hopt, jstrings] at hs
    | some v =>
      cases v with
      | arr xs =>
        have hsx : s ∈ uniqueStringsAux xs [] :=
          mem_uniqueStringsAux xs [] s (Or.inr (by simpa [envElems, hopt] using hs))
        simpa [uniqueStrings] using hsx
      | str s2 => simp [envElems, hopt, jstrings] at hs
      | num n => simp [envElems, hopt, jstrings] at hs
      | bool b => simp [envElems, hopt, jstrings] at hs
      | null => simp [envElems, hopt, jstrings] at hs
      | obj fs => simp [envElems, hopt, jstrings] at hs
  refine ⟨add, ?_, ?_, ?_, ?_⟩
  · rw [hfield, heq]
    rfl
  · simpa using hnd
  · have hsub2 : add.Sublist existingEnv := by simpa [jstrings_map_str] using hsub
    exact hsub2.trans hexist_sub
  · intro s hs
    have hmem : s ∈ uniqueStringsAux (existingEnv.map JVal.str) ["NEXOS_API_KEY"] :=
      mem_uniqueStringsAux _ _ s (Or.inr (by simpa [jstrings_map_str] using hexist_mem s hs))
    rw [heq] at hmem
    exact hmem

/-- C7 witness: the env invariant applied to a configuration whose existing
env list has duplicates, a non-string entry, and the required variable out
of first position; the resulting env is exactly
`["NEXOS_API_KEY", "A", "B"]`. -/
theorem C7_env_invariant_witness :
    getField (buildProviderConfig cfgEnvExample (.obj []) "https://api.nexos.ai/v1") "env" =
      some (.arr [.str "NEXOS_API_KEY", .str "A", .str "B"]) ∧
    (∃ rest : List String,
      getField (buildProviderConfig cfgEnvExample (.obj []) "https://api.nexos.ai/v1") "env" =
        some (.arr (("NEXOS_API_KEY" :: rest).map JVal.str)) ∧
      ("NEXOS_API_KEY" :: rest).Nodup ∧
      rest.Sublist (jstrings (envElems cfgEnvExample)) ∧
      (∀ s ∈ jstrings (envElems cfgEnvExample), s ∈ "NEXOS_API_KEY" :: rest)) := by
  refine ⟨rfl, C7_env_invariant cfgEnvExample (.obj []) "https://api.nexos.ai/v1" ?_⟩
  intro v hv ht
  have hv2 : some (JVal.arr [.str "A", .num (.fin 3), .str "NEXOS_API_KEY", .str "A", .str "B"]) =
      some v := hv
  cases hv2
  exact ⟨_, rfl⟩

/-- A configuration whose `nexos-ai` provider block carries a user-added
field `custom` and an options object with a user-added field `retries`. -/
def cfgProviderCustomField : JVal :=
  .obj [("provider", .obj [("nexos-ai", .obj [
    ("custom", jq 1),
    ("options", .obj [("retries", jq 7)])])])]

/-- C1 counterexample: the existing `nexos-ai` provider block contains a
field `custom` (value `1`), a field other than npm/name/env/options/models,
yet the provider block returned by `buildProviderConfig` does not contain it
— the claim that such fields are preserved fails on this input. -/
theorem C1_counterexample :
    optField (asObject (optField (getField cfgProviderCustomField "provider") "nexos-ai"))
      "custom" = some (jq 1) ∧
    getField (buildProviderConfig cfgProviderCustomField (.obj []) "https://api.nexos.ai/v1")
      "custom" = none :=
  ⟨rfl, rfl⟩

/-- C1 amended: the provider block returned by `buildProviderConfig` has
exactly the keys npm, name, env, options and models — a field other than
these in the existing provider block is not carried over — while unknown
fields inside the existing `options` object are preserved with their
existing values through the shallow options spread. -/
theorem C1_amended (cfg models : JVal) (apiBaseURL : String) :
    objKeys (buildProviderConfig cfg models apiBaseURL) =
      ["npm", "name", "env", "options", "models"] ∧
    (∀ (ofs : List (String × JVal)) (k : String) (v : JVal),
      asObject (optField (asObject (optField (getField cfg "provider") "nexos-ai")) "options") =
        some (.obj ofs) →
      k ≠ "baseURL" → k ≠ "timeout" → findKey ofs k = some v →
      optField (getField (buildProviderConfig cfg models apiBaseURL) "options") k = some v) := by
  refine ⟨rfl, ?_⟩
  intro ofs k v hopts hkb hkt hfind
  rw [show getField (buildProviderConfig cfg models apiBaseURL) "options" = some (.obj (setKey (setKey
      (spreadOpt (asObject (optField (asObject (optField (getField cfg "provider") "nexos-ai")) "options")))
      "baseURL" (jsOrD (optField (optField (asObject (optField (getField cfg "provider") "nexos-ai")) "options") "baseURL") (.str (apiBaseURL ++ "/"))))
      "timeout" (nullishD (optField (optField (asObject (optField (getField cfg "provider") "nexos-ai")) "options") "timeout") (jq 300000))))
    from rfl, hopts]
  simp only [optField, Option.some_bind, spreadOpt, spreadVal]
  rw [getField_setKey_ne _ _ hkt, getField_setKey_ne _ _ hkb]
  exact hfind

/-- C1 amended witness: for the configuration with a `custom` provider field
and a `retries` option, the rebuilt block has exactly the five fixed keys
and still carries `options.retries = 7`. -/
theorem C1_amended_witness :
    objKeys (buildProviderConfig cfgProviderCustomField (.obj []) "https://api.nexos.ai/v1") =
      ["npm", "name", "env", "options", "models"] ∧
    optField (getField (buildProviderConfig cfgProviderCustomField (.obj [])
      "https://api.nexos.ai/v1") "options") "retries" = some (jq 7) :=
  ⟨(C1_amended cfgProviderCustomField (.obj []) "https://api.nexos.ai/v1").1,
    (C1_amended cfgProviderCustomField (.obj []) "https://api.nexos.ai/v1").2
      [("retries", jq 7)] "retries" (jq 7) rfl (by decide) (by decide) rfl⟩

/-- The registry entry stored for `Claude Opus 4.5`, as a pure value. -/
def claudeOpus45Entry : JVal := (findKey SUPPORTED_MODELS "Claude Opus 4.5").getD .null

/-- The object obtained by mutating, in place, the `cost` property of the
object returned by `getModelConfig "Claude Opus 4.5"`. -/
def claudeOpus45Mutated : JVal := .obj (setKey (spreadVal claudeOpus45Entry) "cost" (jq 0))

/-- C2 counterexample: `getModelConfig` returns the stored entry itself
(source: `SUPPORTED_MODELS[displayName] || null`, no clone): in the cell
heap, the lookup for `Claude Opus 4.5` yields the address of the stored
cell, and after mutating the returned object in place a later lookup of the
same name dereferences to the mutated object, which differs from the
original stored entry — so mutating the returned object does change the
result of a later lookup, contradicting the deep-copy claim. -/
theorem C2_counterexample :
    getModelConfigRef "Claude Opus 4.5" = some 0 ∧
    readCell registryHeap0 0 = some claudeOpus45Entry ∧
    readCell (writeCell registryHeap0 0 claudeOpus45Mutated)
      ((getModelConfigRef "Claude Opus 4.5").getD 999) = some claudeOpus45Mutated ∧
    claudeOpus45Mutated ≠ claudeOpus45Entry := by
  refine ⟨rfl, rfl, rfl, ?_⟩
  intro h
  have h2 := congrArg (fun w => getField w "cost") h
  have h3 : some (jq 0) = some (.obj [("input", jq 5), ("output", jq 25),
      ("cache_read", jdec 5 10), ("cache_write", jdec 625 100)]) := h2
  exact JVal.noConfusion (Option.some.inj h3)

/-- C2 amended: for every display name present in the registry,
`getModelConfig` returns the stored entry itself — the lookup yields the
same cell address every time, that cell holds exactly the registry entry,
and any write through the returned reference is visible to later lookups of
the same name (which return the same address). Deep copies are produced by
the resolver functions (`getModelLimit`, `getModelCost`, `getModelVariants`,
`getModelOptions`) instead. -/
theorem C2_amended (displayName : String) (hd : isModelSupported displayName = true) :
    ∃ (a : Addr) (entry : JVal),
      getModelConfigRef displayName = some a ∧
      getModelConfig displayName = some entry ∧
      readCell registryHeap0 a = some entry ∧
      ∀ v : JVal, readCell (writeCell registryHeap0 a v) a = some v := by
  obtain ⟨entry, hentry⟩ := Option.isSome_iff_exists.mp hd
  obtain ⟨i, hi, hget⟩ := findKeyIdx_spec hentry
  refine ⟨i, entry, hi, hentry, hget, ?_⟩
  intro v
  have hlt : i < registryHeap0.cells.length := by
    obtain ⟨hlt, -⟩ := List.getElem?_eq_some_iff.mp hget
    exact hlt
  show (registryHeap0.cells.set i v)[i]? = some v
  rw [List.getElem?_set_self (by simpa using hlt)]

/-- C2 amended witness: the reference-sharing theorem applied to the
registry name `Kimi K2.5`. -/
theorem C2_amended_witness :
    ∃ (a : Addr) (entry : JVal),
      getModelConfigRef "Kimi K2.5" = some a ∧
      getModelConfig "Kimi K2.5" = some entry ∧
      readCell registryHeap0 a = some entry ∧
      ∀ v : JVal, readCell (writeCell registryHeap0 a v) a = some v :=
  C2_amended "Kimi K2.5" rfl

/-! ### lastField lemmas (for the top-level merge) -/

theorem lastField_of_not_mem {fs : List (String × JVal)} {k : String}
    (h : k ∉ fs.map (·.1)) : lastField fs k = none := by
  induction fs with
  | nil => rfl
  | cons p rest ih =>
    simp only [List.map_cons, List.mem_cons] at h
    push_neg at h
    have hp : (p.1 == k) = false := beq_eq_false_iff_ne.mpr (fun hh => h.1 hh.symm)
    simp [lastField, ih h.2, hp]

theorem lastField_eq_findKey_of_nodup {fs : List (String × JVal)}
    (hnd : (fs.map (·.1)).Nodup) (k : String) : lastField fs k = findKey fs k := by
  induction fs with
  | nil => rfl
  | cons p rest ih =>
    simp only [List.map_cons, List.nodup_cons] at hnd
    obtain ⟨hp, hrest⟩ := hnd
    by_cases hk : (p.1 == k) = true
    · have hkp : k = p.1 := (beq_iff_eq.mp hk).symm
      have hnone : lastField rest k = none := lastField_of_not_mem (hkp ▸ hp)
      simp [lastField, findKey, hnone, hk]
    · have heq := ih hrest
      have hk2 : ¬ (p.1 = k) := by simpa using hk
      simp only [lastField, findKey, heq]
      rw [if_neg hk]
      cases hfk : findKey rest k <;> simp [hfk, hk2]

/-! ### findKey through the custom-cost field blocks -/

theorem findKey_costField_ne (currentCost : JVal) (fs : List (String × JVal))
    {k kset : String} (answer : String) (hne : k ≠ kset) :
    findKey (costField currentCost fs kset answer) k = findKey fs k := by
  unfold costField
  by_cases hc : (answer != "" && !(jnumIsNaN (jsParseFloat answer))) = true
  · rw [if_pos hc]
    exact findKey_setKey_ne fs _ hne
  · rw [if_neg hc]
    cases hg : getField currentCost kset with
    | some v => exact findKey_setKey_ne fs _ hne
    | none => rfl

theorem findKey_costField_self (currentCost : JVal) (fs : List (String × JVal))
    {k : String} (answer : String) (hfs : findKey fs k = none) :
    findKey (costField currentCost fs k answer) k =
      if (answer != "" && !(jnumIsNaN (jsParseFloat answer))) = true then
        some (.num (jsParseFloat answer))
      else getField currentCost k := by
  unfold costField
  by_cases hc : (answer != "" && !(jnumIsNaN (jsParseFloat answer))) = true
  · rw [if_pos hc, if_pos hc]
    exact findKey_setKey_self fs k _
  · rw [if_neg hc, if_neg hc]
    cases hg : getField currentCost k with
    | some v => exact findKey_setKey_self fs k v
    | none => exact hfs

/-- Unfolding equation for `buildConfig` (the top-level object literal). -/
theorem buildConfig_eq (existingConfig providerConfig : JVal) :
    buildConfig existingConfig providerConfig =
      .obj (setKey
        (objExtend [("$schema", .str "https://opencode.ai/config.json")] (spreadVal existingConfig))
        "provider"
        (.obj (setKey (spreadOpt (getField existingConfig "provider")) "nexos-ai" providerConfig))) := rfl

/-- A configuration that already carries its own `$schema` value. -/
def cfgCustomSchema : JVal := .obj [("$schema", .str "https://example.com/custom.json")]

/-- C4 counterexample: the object literal in `buildConfig` places the fixed
`$schema` before the spread of the existing configuration, so an existing
`$schema` overrides the fixed value — for a configuration with
`$schema = "https://example.com/custom.json"`, the result keeps that value
instead of the fixed `"https://opencode.ai/config.json"`. -/
theorem C4_counterexample :
    getField (buildConfig cfgCustomSchema (.obj [])) "$schema" =
      some (.str "https://example.com/custom.json") ∧
    JVal.str "https://example.com/custom.json" ≠ JVal.str "https://opencode.ai/config.json" := by
  refine ⟨rfl, ?_⟩
  intro h
  exact absurd (JVal.str.inj h) (by decide)

/-- C4 amended: `buildConfig` returns a configuration whose `$schema` is the
existing configuration value when present (the spread overrides the fixed
literal) and the fixed `"https://opencode.ai/config.json"` otherwise; the
provider map binds `nexos-ai` to the given provider block while keeping the
other provider keys; and every other top-level field equals the existing
configuration value. -/
theorem C4_amended (cfg providerConfig : JVal) (fs : List (String × JVal))
    (hcfg : cfg = .obj fs) (hnd : (fs.map (·.1)).Nodup)
    (hprov : ∀ v, getField cfg "provider" = some v → ∃ pfs, v = .obj pfs) :
    getField (buildConfig cfg providerConfig) "$schema" =
      some ((getField cfg "$schema").getD (.str "https://opencode.ai/config.json")) ∧
    (∃ provFields : List (String × JVal),
      getField (buildConfig cfg providerConfig) "provider" = some (.obj provFields) ∧
      findKey provFields "nexos-ai" = some providerConfig ∧
      (∀ k, k ≠ "nexos-ai" → findKey provFields k = optField (getField cfg "provider") k)) ∧
    (∀ k, k ≠ "$schema" → k ≠ "provider" →
      getField (buildConfig cfg providerConfig) k = getField cfg k) := by
  subst hcfg
  refine ⟨?_, ?_, ?_⟩
  · rw [buildConfig_eq, getField_setKey_ne _ _ (by decide : ("$schema" : String) ≠ "provider")]
    rw [show getField (.obj (objExtend [("$schema", .str "https://opencode.ai/config.json")]
        (spreadVal (.obj fs)))) "$schema" =
      findKey (objExtend [("$schema", .str "https://opencode.ai/config.json")] fs) "$schema" from rfl]
    rw [findKey_objExtend, lastField_eq_findKey_of_nodup hnd]
    cases hfk : findKey fs "$schema" with
    | some w => simp [getField, hfk]
    | none => simp [getField, hfk, findKey]
  · refine ⟨setKey (spreadOpt (getField (.obj fs) "provider")) "nexos-ai" providerConfig,
      ?_, findKey_setKey_self _ _ _, ?_⟩
    · rw [buildConfig_eq]
      exact getField_setKey_self _ _ _
    · intro k hk
      rw [findKey_setKey_ne _ _ hk]
      cases hp : getField (.obj fs) "provider" with
      | none => simp [spreadOpt, optField, findKey]
      | some v =>
        obtain ⟨pfs, rfl⟩ := hprov v hp
        simp [spreadOpt, spreadVal, optField, getField]
  · intro k hks hkp
    rw [buildConfig_eq, getField_setKey_ne _ _ hkp]
    rw [show getField (.obj (objExtend [("$schema", .str "https://opencode.ai/config.json")]
        (spreadVal (.obj fs)))) k =
      findKey (objExtend [("$schema", .str "https://opencode.ai/config.json")] fs) k from rfl]
    rw [findKey_objExtend, lastField_eq_findKey_of_nodup hnd]
    have hx : ("$schema" == k) = false := beq_eq_false_iff_ne.mpr (fun hh => hks hh.symm)
    cases hfk : findKey fs k with
    | some w => simp [getField, hfk]
    | none => simp [getField, hfk, findKey, hx]

/-- A configuration with its own `$schema`, an `agent` block and a foreign
provider key. -/
def cfgMergeExample : JVal := .obj [
  ("$schema", .str "https://example.com/custom.json"),
  ("agent", .obj [("plan", .obj [("model", .str "x")])]),
  ("provider", .obj [("other-provider", .obj [("name", .str "Other")])])]

/-- C4 amended witness: the merge theorem applied to a concrete
configuration — its own `$schema` survives, `agent` is untouched, the
`nexos-ai` block is bound and the foreign provider key is kept. -/
theorem C4_amended_witness :
    getField (buildConfig cfgMergeExample (.obj [])) "$schema" =
      some ((getField cfgMergeExample "$schema").getD (.str "https://opencode.ai/config.json")) ∧
    (∃ provFields : List (String × JVal),
      getField (buildConfig cfgMergeExample (.obj [])) "provider" = some (.obj provFields) ∧
      findKey provFields "nexos-ai" = some (.obj []) ∧
      (∀ k, k ≠ "nexos-ai" → findKey provFields k = optField (getField cfgMergeExample "provider") k)) ∧
    getField (buildConfig cfgMergeExample (.obj [])) "agent" = getField cfgMergeExample "agent" := by
  have hprov : ∀ v, getField cfgMergeExample "provider" = some v → ∃ pfs, v = JVal.obj pfs := by
    intro v hv
    have hv2 : some (JVal.obj [("other-provider", .obj [("name", .str "Other")])]) = some v := hv
    cases hv2
    exact ⟨_, rfl⟩
  obtain ⟨h1, h2, h3⟩ := C4_amended cfgMergeExample (.obj [])
    [("$schema", .str "https://example.com/custom.json"),
     ("agent", .obj [("plan", .obj [("model", .str "x")])]),
     ("provider", .obj [("other-provider", .obj [("name", .str "Other")])])]
    rfl (by decide) hprov
  exact ⟨h1, h2, h3 "agent" (by decide) (by decide)⟩

/-- Unfolding equation for `buildCustomCost` (the four field blocks). -/
theorem getField_buildCustomCost (currentCost : JVal)
    (newInput newOutput newCacheRead newCacheWrite k : String) :
    getField (buildCustomCost currentCost newInput newOutput newCacheRead newCacheWrite) k =
      findKey (costField currentCost
        (costField currentCost
          (costField currentCost
            (costField currentCost [] "input" newInput)
            "output" newOutput)
          "cache_read" newCacheRead)
        "cache_write" newCacheWrite) k := rfl

/-- C6 counterexample: the answer `"Infinity"` does not parse as a finite
number, so by the claim the prior `input` cost `5` should be kept; the
source checks only `!isNaN(parseFloat(...))`, which accepts `Infinity`, so
the built cost stores an infinite `input` instead of keeping `5`. -/
theorem C6_counterexample :
    buildCustomCost (.obj [("input", jq 5)]) "Infinity" "" "" "" =
      .obj [("input", .num .posInf)] ∧
    JVal.num JNum.posInf ≠ jq 5 := by
  refine ⟨rfl, ?_⟩
  intro h
  exact JNum.noConfusion (JVal.num.inj h)

/-- C6 amended: for each of the four cost fields, if the prompt answer is
non-empty and `parseFloat` yields a non-NaN number (possibly infinite — the
source check is `!isNaN(parseFloat(...))`), the parsed value is used;
otherwise the prior cost field is kept when present and omitted when
absent. In particular, all-blank answers for a prior cost
`{input: 5, output: 15, cache_read: 0.5}` reproduce that exact object, and
answering only `"25"` for output yields
`{input: 5, output: 25, cache_read: 0.5}` with no `cache_write`. -/
theorem C6_amended (currentCost : JVal)
    (newInput newOutput newCacheRead newCacheWrite : String) :
    (getField (buildCustomCost currentCost newInput newOutput newCacheRead newCacheWrite) "input" =
      if (newInput != "" && !(jnumIsNaN (jsParseFloat newInput))) = true then
        some (.num (jsParseFloat newInput))
      else getField currentCost "input") ∧
    (getField (buildCustomCost currentCost newInput newOutput newCacheRead newCacheWrite) "output" =
      if (newOutput != "" && !(jnumIsNaN (jsParseFloat newOutput))) = true then
        some (.num (jsParseFloat newOutput))
      else getField currentCost "output") ∧
    (getField (buildCustomCost currentCost newInput newOutput newCacheRead newCacheWrite) "cache_read" =
      if (newCacheRead != "" && !(jnumIsNaN (jsParseFloat newCacheRead))) = true then
        some (.num (jsParseFloat newCacheRead))
      else getField currentCost "cache_read") ∧
    (getField (buildCustomCost currentCost newInput newOutput newCacheRead newCacheWrite) "cache_write" =
      if (newCacheWrite != "" && !(jnumIsNaN (jsParseFloat newCacheWrite))) = true then
        some (.num (jsParseFloat newCacheWrite))
      else getField currentCost "cache_write") ∧
    (buildCustomCost (.obj [("input", jq 5), ("output", jq 15), ("cache_read", jdec 5 10)])
      "" "" "" "" = .obj [("input", jq 5), ("output", jq 15), ("cache_read", jdec 5 10)]) ∧
    (buildCustomCost (.obj [("input", jq 5), ("output", jq 15), ("cache_read", jdec 5 10)])
      "" "25" "" "" = .obj [("input", jq 5), ("output", jq 25), ("cache_read", jdec 5 10)]) := by
  refine ⟨?_, ?_, ?_, ?_, rfl, rfl⟩
  · rw [getField_buildCustomCost,
      findKey_costField_ne _ _ _ (by decide : ("input" : String) ≠ "cache_write"),
      findKey_costField_ne _ _ _ (by decide : ("input" : String) ≠ "cache_read"),
      findKey_costField_ne _ _ _ (by decide : ("input" : String) ≠ "output")]
    exact findKey_costField_self currentCost [] newInput rfl
  · have h0 : findKey (costField currentCost [] "input" newInput) "output" = none := by
      rw [findKey_costField_ne _ _ _ (by decide : ("output" : String) ≠ "input")]
      rfl
    rw [getField_buildCustomCost,
      findKey_costField_ne _ _ _ (by decide : ("output" : String) ≠ "cache_write"),
      findKey_costField_ne _ _ _ (by decide : ("output" : String) ≠ "cache_read")]
    exact findKey_costField_self currentCost _ newOutput h0
  · have h0 : findKey (costField currentCost (costField currentCost [] "input" newInput)
        "output" newOutput) "cache_read" = none := by
      rw [findKey_costField_ne _ _ _ (by decide : ("cache_read" : String) ≠ "output"),
        findKey_costField_ne _ _ _ (by decide : ("cache_read" : String) ≠ "input")]
      rfl
    rw [getField_buildCustomCost,
      findKey_costField_ne _ _ _ (by decide : ("cache_read" : String) ≠ "cache_write")]
    exact findKey_costField_self currentCost _ newCacheRead h0
  · have h0 : findKey (costField currentCost (costField currentCost (costField currentCost []
        "input" newInput) "output" newOutput) "cache_read" newCacheRead) "cache_write" = none := by
      rw [findKey_costField_ne _ _ _ (by decide : ("cache_write" : String) ≠ "cache_read"),
        findKey_costField_ne _ _ _ (by decide : ("cache_write" : String) ≠ "output"),
        findKey_costField_ne _ _ _ (by decide : ("cache_write" : String) ≠ "input")]
      rfl
    rw [getField_buildCustomCost]
    exact findKey_costField_self currentCost _ newCacheWrite h0

end Nexos
